import Mathlib

/-!
Verification development for the caprae-ai-analyzer scraping core
(`scraper.py`).  The Python functions `find_relevant_links`,
`extract_emails`, `extract_relevant_text`, `summarize_text` and
`run_scraping_only` are shallowly embedded as executable Lean
definitions over a first-child/next-sibling model of the parsed HTML
document.  External collaborators (network fetch, HTML parser, the
generative model, the wall clock) are supplied by an explicit `World`
record of oracles, mirroring how the code consumes them.
-/

namespace Scraper

/-- Python truthiness of an optional string: `None` and `""` are falsy
(`if not links['about']`, `if results['about_text']`, ...). -/
def pyFalsy : Option String → Bool
  | none => true
  | some s => decide (s = "")

/-- Boolean test that `pat` occurs as a contiguous run inside `l`
(Python's `in` operator on strings). -/
def occursIn (pat : List Char) : List Char → Bool
  | [] => pat.isEmpty
  | c :: tl => pat.isPrefixOf (c :: tl) || occursIn pat tl

/-- Python `pat in s` (substring containment). -/
def strContains (s pat : String) : Bool := occursIn pat.toList s.toList

/-- Split a character list at the first occurrence of `pat`, returning the
parts before and after it; `none` when `pat` does not occur. -/
def splitAtSub (pat : List Char) : List Char → Option (List Char × List Char)
  | [] => if pat.isEmpty then some ([], []) else none
  | c :: tl =>
    if pat.isPrefixOf (c :: tl) then some ([], (c :: tl).drop pat.length)
    else
      match splitAtSub pat tl with
      | some (a, b) => some (c :: a, b)
      | none => none

/-- Fuelled worker for `replaceAllStr`; the fuel is instantiated with the
length of the scanned list, which bounds the number of scanning steps since
every step consumes at least one character. -/
def replaceAllAux (pat : List Char) : Nat → List Char → List Char
  | 0, l => l
  | _ + 1, [] => []
  | fuel + 1, c :: tl =>
    if !pat.isEmpty && pat.isPrefixOf (c :: tl) then
      replaceAllAux pat fuel ((c :: tl).drop pat.length)
    else c :: replaceAllAux pat fuel tl

/-- Python `s.replace(pat, '')`: delete every occurrence of `pat`, scanning
left to right (scraper.py line 90 uses this on the URL host). -/
def replaceAllStr (pat s : String) : String :=
  String.mk (replaceAllAux pat.toList s.toList.length s.toList)

/-- Split a character list at separator characters (those satisfying `p`),
dropping empty pieces; `acc` holds the current piece reversed. -/
def splitDropAux (p : Char → Bool) : List Char → List Char → List (List Char)
  | [], acc => if acc.isEmpty then [] else [acc.reverse]
  | c :: tl, acc =>
    if p c then
      if acc.isEmpty then splitDropAux p tl [] else acc.reverse :: splitDropAux p tl []
    else splitDropAux p tl (c :: acc)

/-- Split on separator characters, dropping empty pieces (Python
`s.split()` for whitespace, and `[p for p in s.split('/') if p]`). -/
def splitDrop (p : Char → Bool) (l : List Char) : List (List Char) := splitDropAux p l []

/-- Join character-list pieces with a separator. -/
def joinSep (sep : List Char) : List (List Char) → List Char
  | [] => []
  | [w] => w
  | w :: ws => w ++ sep ++ joinSep sep ws

/-- Python `' '.join(text.split())` (scraper.py line 152): collapse every
whitespace run to a single space and trim the ends. -/
def normalizeWs (s : String) : String :=
  String.mk (joinSep [' '] (splitDrop Char.isWhitespace s.toList))

/-- Python `s.lower()` (ASCII case folding). -/
def strLower (s : String) : String := String.mk (s.toList.map Char.toLower)

/-- Python `s.strip()`: drop leading and trailing whitespace. -/
def strTrim (s : String) : String :=
  String.mk (((s.toList.dropWhile Char.isWhitespace).reverse.dropWhile Char.isWhitespace).reverse)

/-- Python `s.startswith(pat)`. -/
def strStartsWith (s pat : String) : Bool := pat.toList.isPrefixOf s.toList

/-- Python `s[n:]`: drop the first `n` characters. -/
def strDrop (s : String) (n : Nat) : String := String.mk (s.toList.drop n)

/-- Python `s[:n]`: take the first `n` characters. -/
def strTake (s : String) (n : Nat) : String := String.mk (s.toList.take n)

/-- Python `len(s)`. -/
def strLen (s : String) : Nat := s.toList.length

/-- Characters allowed in the local part of `EMAIL_REGEX`
(`[a-zA-Z0-9._%+-]`). -/
def isLocalChar (c : Char) : Bool :=
  c.isAlphanum || c == '.' || c == '_' || c == '%' || c == '+' || c == '-'

/-- Characters allowed in the domain part of `EMAIL_REGEX`
(`[a-zA-Z0-9.-]`). -/
def isDomainChar (c : Char) : Bool := c.isAlphanum || c == '.' || c == '-'

/-- The domain tail check of the email grammar: the string ends in a dot
followed by at least two letters, with a non-empty domain before the dot. -/
def hasDotTld (r : List Char) : Bool :=
  match r.reverse.dropWhile Char.isAlpha with
  | '.' :: d => decide (2 ≤ (r.reverse.takeWhile Char.isAlpha).length) && !d.isEmpty
  | _ => false

/-- `re.fullmatch(EMAIL_REGEX, s)` for
`EMAIL_REGEX = r"[a-zA-Z0-9._%+-]+@[a-zA-Z0-9.-]+\.[a-zA-Z]{2,}"`
(scraper.py line 32): a non-empty local part, an `@`, and a domain of
domain characters ending in a dot plus a 2+ letter suffix. -/
def isEmailFull (l : List Char) : Bool :=
  match l.dropWhile isLocalChar with
  | '@' :: r => !(l.takeWhile isLocalChar).isEmpty && r.all isDomainChar && hasDotTld r
  | _ => false

/-- Index `i` of the domain-character run `R` is a dot that can end the
`[a-zA-Z0-9.-]+` group: at least one character precedes it and at least two
letters follow it. -/
def validDot (R : List Char) (i : Nat) : Bool :=
  decide (1 ≤ i) && (R.drop i).headD ' ' == '.' &&
    decide (2 ≤ ((R.drop (i + 1)).takeWhile Char.isAlpha).length)

/-- Backtracking of `[a-zA-Z0-9.-]+\.[a-zA-Z]{2,}` inside the maximal
domain-character run `R`: the first group greedily ends at the last dot
followed by two or more letters, the letter group then extends maximally.
Returns the matched part and the unmatched remainder of `R`. -/
def domainSplit (R : List Char) : Option (List Char × List Char) :=
  match (List.range R.length).foldl (fun acc i => if validDot R i then some i else acc) none with
  | some i =>
    some (R.take i ++ '.' :: (R.drop (i + 1)).takeWhile Char.isAlpha,
          (R.drop (i + 1)).dropWhile Char.isAlpha)
  | none => none

/-- One attempt of the Python regex engine to match `EMAIL_REGEX` at the
head of `l`: the greedy local-part run must be non-empty and followed by
`@`, then the domain is matched inside the maximal domain-character run.
Returns the match and the rest of the input after it. -/
def emailMatchFrom (l : List Char) : Option (List Char × List Char) :=
  match l.dropWhile isLocalChar with
  | '@' :: r0 =>
    if (l.takeWhile isLocalChar).isEmpty then none
    else
      match domainSplit (r0.takeWhile isDomainChar) with
      | some (dm, rrem) =>
        some (l.takeWhile isLocalChar ++ '@' :: dm, rrem ++ r0.dropWhile isDomainChar)
      | none => none
  | _ => none

/-- Fuelled scan of `re.findall(EMAIL_REGEX, text)`: try a match at each
position, emit it and continue after it, otherwise advance one character.
The fuel is instantiated with the input length, which bounds the number of
steps since every step consumes at least one character. -/
def emailScanAux : Nat → List Char → List (List Char)
  | 0, _ => []
  | _ + 1, [] => []
  | fuel + 1, c :: tl =>
    match emailMatchFrom (c :: tl) with
    | some (m, rem) => m :: emailScanAux fuel rem
    | none => emailScanAux fuel tl

/-- `re.findall(EMAIL_REGEX, text)` (scraper.py line 115). -/
def emailFindall (l : List Char) : List (List Char) := emailScanAux l.length l

/-- Parsed HTML document tree (the BeautifulSoup object), in
first-child/next-sibling form: `elem tag attrs children sibling` and
`text s sibling`.  Traversal of `children` before `sibling` gives document
order. -/
inductive Dom where
  | nil : Dom
  | text : String → Dom → Dom
  | elem : String → List (String × String) → Dom → Dom → Dom
deriving DecidableEq

/-- Attribute lookup on an element (first occurrence wins). -/
def getAttr (attrs : List (String × String)) (k : String) : Option String :=
  match attrs.find? (fun p => p.1 == k) with
  | some p => some p.2
  | none => none

/-- All text nodes of the tree in document order
(`soup.find_all(string=True)`). -/
def domTexts : Dom → List String
  | .nil => []
  | .text s sib => s :: domTexts sib
  | .elem _ _ cs sib => domTexts cs ++ domTexts sib

/-- `tag.get_text()`: concatenation of all text nodes below the node. -/
def getTextRaw (d : Dom) : String := String.join (domTexts d)

/-- `tag.get_text(separator=' ', strip=True)`: each text node stripped,
empty pieces dropped, the rest joined by single spaces. -/
def getTextSep (d : Dom) : String :=
  String.mk (joinSep [' '] (((domTexts d).map (fun s => (strTrim s).toList)).filter
    (fun w => !w.isEmpty)))

/-- All `<a href=...>` anchors in document order, as (visible text, href)
pairs (`soup.find_all('a', href=True)`, scraper.py line 68). -/
def anchorsOf : Dom → List (String × String)
  | .nil => []
  | .text _ sib => anchorsOf sib
  | .elem t a cs sib =>
    (if t == "a" then
      match getAttr a "href" with
      | some h => [(getTextRaw (Dom.elem t a cs .nil), h)]
      | none => []
    else []) ++ anchorsOf cs ++ anchorsOf sib

/-- First element (document order) whose tag and attributes satisfy `p`,
returned as a detached element (`soup.find` / `soup.select_one`). -/
def findElem? (p : String → List (String × String) → Bool) : Dom → Option Dom
  | .nil => none
  | .text _ sib => findElem? p sib
  | .elem t a cs sib =>
    if p t a then some (Dom.elem t a cs .nil)
    else
      match findElem? p cs with
      | some r => some r
      | none => findElem? p sib

/-- `soup.find('body')` (scraper.py line 145). -/
def findBody (d : Dom) : Option Dom := findElem? (fun t _ => t == "body") d

/-- `tag.string` for the `<title>` element: the single text child, read
through uniquely-nested single children; `None` otherwise. -/
def domString? : Dom → Option String
  | .elem _ _ (Dom.text s Dom.nil) Dom.nil => some s
  | .elem _ _ (Dom.elem t a cs Dom.nil) Dom.nil => domString? (Dom.elem t a cs Dom.nil)
  | _ => none

/-- `soup.title` followed by `.string` (scraper.py line 225). -/
def titleString (d : Dom) : Option String :=
  match findElem? (fun t _ => t == "title") d with
  | some ti => domString? ti
  | none => none

/-- Deep structural copy of a subtree, modelling
`BeautifulSoup(str(body), 'lxml').find('body')` (scraper.py line 147):
re-serialising and re-parsing a subtree yields an equal, unshared tree. -/
def copyDom : Dom → Dom
  | .nil => .nil
  | .text s sib => .text s (copyDom sib)
  | .elem t a cs sib => .elem t a (copyDom cs) (copyDom sib)

/-- The noise selectors decomposed from the body copy (scraper.py line
148): tag names plus the `.sidebar` class and `#sidebar` id. -/
def isNoise (t : String) (a : List (String × String)) : Bool :=
  (["nav", "header", "footer", "script", "style", "aside", "form", "noscript",
    "iframe", "button"].contains t)
  || (match getAttr a "class" with
      | some v => (splitDrop Char.isWhitespace v.toList).contains "sidebar".toList
      | none => false)
  || getAttr a "id" == some "sidebar"

/-- Remove every noise subtree (`tag.decompose()` over all noise
selectors); removal is closed under subtrees, so the sequential per-selector
passes of the source equal this single pass. -/
def scrubDom : Dom → Dom
  | .nil => .nil
  | .text s sib => .text s (scrubDom sib)
  | .elem t a cs sib => if isNoise t a then scrubDom sib else .elem t a (scrubDom cs) (scrubDom sib)

/-- Apply the noise scrub below a node (the decompose loop never removes
the body element itself: `select` matches descendants only). -/
def scrubChildren : Dom → Dom
  | .elem t a cs sib => .elem t a (scrubDom cs) sib
  | d => d

/-- Parsed pieces of a URL, modelled from `urllib.parse.urlparse` for the
`scheme://netloc/path` shapes the scraper builds. -/
structure UrlParts where
  scheme : String
  netloc : String
  path : String
deriving DecidableEq

/-- Modelled from `urllib.parse.urlparse`: split off `scheme://`, then the
host runs to the first `/`, `?` or `#`, and the path to the first `?` or
`#`.  Without a scheme the whole prefix up to `?`/`#` is the path. -/
def urlparse (u : String) : UrlParts :=
  match splitAtSub "://".toList u.toList with
  | some (sch, rest) =>
    let netloc := rest.takeWhile (fun c => c != '/' && c != '?' && c != '#')
    let tail := rest.drop netloc.length
    ⟨String.mk sch, String.mk netloc, String.mk (tail.takeWhile (fun c => c != '?' && c != '#'))⟩
  | none => ⟨"", "", String.mk (u.toList.takeWhile (fun c => c != '?' && c != '#'))⟩

/-- Modelled from `urllib.parse.urljoin` for the reference shapes the
scraper meets: absolute references are kept, `//`-references adopt the base
scheme, root-relative references adopt scheme and host, other references
replace the last path segment of the base. -/
def urljoin (base href : String) : String :=
  if (splitAtSub "://".toList href.toList).isSome then href
  else if strStartsWith href "//" then (urlparse base).scheme ++ ":" ++ href
  else if strStartsWith href "/" then (urlparse base).scheme ++ "://" ++ (urlparse base).netloc ++ href
  else
    (urlparse base).scheme ++ "://" ++ (urlparse base).netloc ++
      String.mk (((urlparse base).path.toList.reverse.dropWhile (fun c => c != '/')).reverse) ++ href

/-- `SOCIAL_DOMAINS` (scraper.py line 33). -/
def SOCIAL_DOMAINS : List String :=
  ["linkedin.com", "facebook.com", "twitter.com", "instagram.com", "youtube.com"]

/-- The social path exclusion words of scraper.py line 94 (note the leading
slash on each). -/
def SOCIAL_PATH_EXCL : List String :=
  ["/share", "/intent", "/addtoany", "/login", "/post", "/status", "/jobs",
   "/careers", "/legal", "/privacy"]

/-- Result of `find_relevant_links` (scraper.py line 64). -/
structure LinkSet where
  about : Option String
  contact : Option String
  social : Finset String

/-- Skip filter of scraper.py line 72: empty, fragment, script, tel and
mailto targets are not classified. -/
def validHrefB (href : String) : Bool :=
  !(href == "" || strStartsWith href "javascript:" || strStartsWith href "#"
    || strStartsWith href "tel:" || strStartsWith href "mailto:")

/-- About rule of scraper.py line 78, on the lowered+stripped visible text
and the lowered href. -/
def isAboutLink (link_text href_lower : String) : Bool :=
  (strContains link_text "about" || strContains href_lower "/about"
    || strContains link_text "company" || strContains link_text "who we are"
    || strContains href_lower "who-we-are")
  && !(["blog", "news", "press", "careers", "jobs", "events"].any
        (fun kw => strContains href_lower kw))

/-- Contact rule of scraper.py line 84. -/
def isContactLink (link_text href_lower : String) : Bool :=
  strContains link_text "contact" || strContains href_lower "/contact"
  || strContains href_lower "get-in-touch" || strContains link_text "get in touch"
  || strContains link_text "support"

/-- Host of a candidate social URL after `netloc.replace('www.', '')`
(scraper.py line 90). -/
def socialDomainOf (u : String) : String := replaceAllStr "www." (urlparse u).netloc

/-- Lowered path of a candidate social URL (scraper.py line 91). -/
def socialPathOf (u : String) : String := strLower (urlparse u).path

/-- Non-empty path segments of a candidate social URL (scraper.py line 96). -/
def socialPathParts (u : String) : List String :=
  ((splitDrop (fun c => c == '/') (socialPathOf u).toList).map String.mk)

/-- Social rule of scraper.py lines 93-98 on the resolved URL. -/
def isSocialUrl (u : String) : Bool :=
  (SOCIAL_DOMAINS.any (fun d => strContains (socialDomainOf u) d))
  && !(SOCIAL_PATH_EXCL.any (fun w => strContains (socialPathOf u) w))
  && (decide ((socialPathParts u).length ≤ 2)
      || (socialPathParts u).any (fun p => ["company", "in", "user", "channel"].contains p))

/-- Per-anchor body of the loop of `find_relevant_links` (scraper.py lines
68-101): the About and Contact slots are filled only while falsy (first
match wins), social links accumulate as a set. -/
def classifyStep (base_url : String) (links : LinkSet) (a : String × String) : LinkSet :=
  let link_text := strTrim (strLower a.1)
  let href := a.2
  if validHrefB href then
    let full_url := urljoin base_url href
    let href_lower := strLower href
    let links1 :=
      if pyFalsy links.about && isAboutLink link_text href_lower then
        { links with about := some full_url }
      else links
    let links2 :=
      if pyFalsy links1.contact && isContactLink link_text href_lower then
        { links1 with contact := some full_url }
      else links1
    if isSocialUrl full_url then { links2 with social := insert full_url links2.social }
    else links2
  else links

/-- `find_relevant_links(soup, base_url)` (scraper.py lines 62-105). -/
def find_relevant_links (soup : Option Dom) (base_url : String) : LinkSet :=
  match soup with
  | none => ⟨none, none, ∅⟩
  | some doc => (anchorsOf doc).foldl (classifyStep base_url) ⟨none, none, ∅⟩

/-- Per-text-node step of `extract_emails` (scraper.py lines 113-116):
union in all regex matches found in the text node. -/
def textStep (s : Finset String) (t : String) : Finset String :=
  (emailFindall t.toList).foldl (fun s m => insert (String.mk m) s) s

/-- Per-anchor step of `extract_emails` (scraper.py lines 119-123): a
`mailto:` target has its query part stripped and joins the set only on a
full-string match of the email grammar. -/
def mailtoStep (s : Finset String) (a : String × String) : Finset String :=
  if strStartsWith a.2 "mailto:" then
    let ep := String.mk ((strDrop a.2 7).toList.takeWhile (fun c => c != '?'))
    if isEmailFull ep.toList then insert ep s else s
  else s

/-- `extract_emails(soup)` (scraper.py lines 107-127): regex matches over
all text nodes, united with full-match validated `mailto:` targets. -/
def extract_emails (soup : Option Dom) : Finset String :=
  match soup with
  | none => ∅
  | some doc => (anchorsOf doc).foldl mailtoStep ((domTexts doc).foldl textStep ∅)

/-- Selectors tried by the selector tier, in source order (scraper.py line
135). -/
inductive Selector where
  | tag : String → Selector
  | tagRole : String → String → Selector
  | cls : String → Selector
  | idSel : String → Selector
deriving DecidableEq

/-- CSS selector matching on an element's tag and attributes. -/
def matchesSel (sel : Selector) (t : String) (a : List (String × String)) : Bool :=
  match sel with
  | .tag t' => t == t'
  | .tagRole t' r => t == t' && getAttr a "role" == some r
  | .cls c => match getAttr a "class" with
    | some v => (splitDrop Char.isWhitespace v.toList).contains c.toList
    | none => false
  | .idSel i => getAttr a "id" == some i

/-- The ordered selector list of scraper.py line 135. -/
def SELECTORS : List Selector :=
  [.tag "main", .tag "article", .tagRole "section" "main", .tagRole "div" "main",
   .cls "main-content", .idSel "main-content", .cls "content", .idSel "content"]

/-- `soup.select_one(selector)`. -/
def selectOne (doc : Dom) (sel : Selector) : Option Dom := findElem? (matchesSel sel) doc

/-- One selector attempt of the tier loop (scraper.py lines 136-143): the
first match of the selector is accepted only when its separator-joined text
exceeds 200 characters. -/
def selQual (doc : Dom) (sel : Selector) : Option String :=
  match selectOne doc sel with
  | some el => let t := getTextSep el; if 200 < strLen t then some t else none
  | none => none

/-- The selector tier: first qualifying selector in list order wins. -/
def selectorTierText (doc : Dom) : Option String := SELECTORS.findSome? (selQual doc)

/-- The fallback tier (scraper.py lines 144-151): take the body, decompose
the noise selectors on a re-parsed copy, and read its separator-joined
text; `none` when there is no body at all. -/
def fallbackText (doc : Dom) : Option String :=
  match findBody doc with
  | some body => some (getTextSep (scrubChildren (copyDom body)))
  | none => none

/-- `extract_relevant_text(soup)` with the document state threaded
explicitly (scraper.py lines 129-154): the returned document is the state
of the soup object after the call.  The noise decompose runs on a copy of
the body, so the input tree is returned unchanged. -/
def extract_relevant_textM (doc : Dom) : Option String × Dom :=
  let text : Option String :=
    match selectorTierText doc with
    | some t => some t
    | none => fallbackText doc
  match text with
  | some t => if t == "" then (none, doc) else (some (normalizeWs t), doc)
  | none => (none, doc)

/-- `extract_relevant_text(soup)` (scraper.py lines 129-154). -/
def extract_relevant_text (soup : Option Dom) : Option String :=
  match soup with
  | none => none
  | some doc => (extract_relevant_textM doc).1

/-- Outcome of one `model.generate_content` call: a usable response part,
an empty/blocked response, or a raised exception with message `e`. -/
inductive GenOutcome where
  | ok : String → GenOutcome
  | blocked : GenOutcome
  | err : String → GenOutcome

/-- The external collaborators and clock the scraper consumes: network
fetch (`None` = fetch failure), HTML parsing of fetched bytes (`None` =
parse failure), the summarizer credential and model, and the two
`time.time()` readings (modelled as integers). -/
structure World where
  fetch : String → Option String
  parse : String → Option Dom
  apiKey : Option String
  gen : String → GenOutcome
  t1 : Int
  t2 : Int

/-- `fetch_page(url)` (scraper.py lines 37-51): returns the response bytes
or `None` on any failure. -/
def fetch_page (w : World) (url : String) : Option String := w.fetch url

/-- `parse_html(response)` (scraper.py lines 53-60). -/
def parse_html (w : World) (r : Option String) : Option Dom :=
  match r with
  | none => none
  | some bytes => w.parse bytes

/-- `summarize_text(text)` (scraper.py lines 157-176): a missing credential
yields the error-marker string before any length check; short or empty
text yields `None`; otherwise the model is consulted on the first 4000
characters, with exceptions surfaced as an error-marker string. -/
def summarize_text (w : World) (text : String) : Option String :=
  match w.apiKey with
  | none => some "API Key Error: GOOGLE_API_KEY not set."
  | some _ =>
    if text == "" || strLen text < 75 then none
    else
      match w.gen (strTake text 4000) with
      | .ok s => some (strTrim s)
      | .blocked => none
      | .err e => some ("Error: " ++ e)

/-- Result record of `run_scraping_only` (scraper.py line 214). -/
structure AnalysisResult where
  url : String
  title : String
  emails : Finset String
  social_links : Finset String
  about_text : Option String
  about_summary : Option String
  technologies : Finset String
  processing_time : Int

/-- The About-page block of `run_scraping_only` (scraper.py lines 232-242):
returns (about_text, about_summary, about-page emails).  The about soup is
threaded through `extract_relevant_textM` so that the email pass sees the
document state left by content extraction. -/
def aboutStep (w : World) (about_url : Option String) : Option String × Option String × Finset String :=
  match about_url with
  | some aurl =>
    if aurl == "" then (none, none, ∅)
    else
      match parse_html w (fetch_page w aurl) with
      | some asoup =>
        let pr := extract_relevant_textM asoup
        let asum :=
          match pr.1 with
          | some t => if t == "" then none else summarize_text w t
          | none => none
        (pr.1, asum, extract_emails (some pr.2))
      | none => (none, none, ∅)
  | none => (none, none, ∅)

/-- The Contact-page block of `run_scraping_only` (scraper.py lines
244-250): only its emails contribute. -/
def contactStep (w : World) (contact_url : Option String) : Finset String :=
  match contact_url with
  | some curl =>
    if curl == "" then ∅
    else
      match parse_html w (fetch_page w curl) with
      | some csoup => extract_emails (some csoup)
      | none => ∅
  | none => ∅

/-- `run_scraping_only(target_url)` (scraper.py lines 211-254): fetch and
parse the homepage (soft failure returns the default record), read title
and emails, classify links, then process the About and Contact pages. -/
def run_scraping_only (w : World) (target_url : String) : AnalysisResult :=
  match parse_html w (fetch_page w target_url) with
  | none =>
    { url := target_url, title := "N/A", emails := ∅, social_links := ∅,
      about_text := none, about_summary := none, technologies := ∅,
      processing_time := w.t2 - w.t1 }
  | some soup =>
    let title :=
      match titleString soup with
      | some s => if s == "" then "N/A" else strTrim s
      | none => "N/A"
    let links := find_relevant_links (some soup) target_url
    let ab := aboutStep w links.about
    { url := target_url, title := title,
      emails := (extract_emails (some soup) ∪ ab.2.2) ∪ contactStep w links.contact,
      social_links := links.social,
      about_text := ab.1, about_summary := ab.2.1, technologies := ∅,
      processing_time := w.t2 - w.t1 }

/-! ### Lemmas: the email scanner only produces full grammar matches -/

theorem all_takeWhileP (p : Char → Bool) (l : List Char) : (l.takeWhile p).all p = true := by
  induction l with
  | nil => rfl
  | cons c tl ih =>
    rw [List.takeWhile_cons]
    cases h : p c
    · rfl
    · simp [h, ih]

theorem takeWhile_append_all (p : Char → Bool) (l₁ l₂ : List Char) (h : l₁.all p = true) :
    (l₁ ++ l₂).takeWhile p = l₁ ++ l₂.takeWhile p := by
  induction l₁ with
  | nil => simp
  | cons c tl ih =>
    simp only [List.all_cons, Bool.and_eq_true] at h
    simp [List.takeWhile_cons, h.1, ih h.2]

theorem dropWhile_append_all (p : Char → Bool) (l₁ l₂ : List Char) (h : l₁.all p = true) :
    (l₁ ++ l₂).dropWhile p = l₂.dropWhile p := by
  induction l₁ with
  | nil => simp
  | cons c tl ih =>
    simp only [List.all_cons, Bool.and_eq_true] at h
    simp [List.dropWhile_cons, h.1, ih h.2]

theorem takeWhile_cons_false (p : Char → Bool) (c : Char) (l : List Char) (h : p c = false) :
    (c :: l).takeWhile p = [] := by
  simp [List.takeWhile_cons, h]

theorem dropWhile_cons_false (p : Char → Bool) (c : Char) (l : List Char) (h : p c = false) :
    (c :: l).dropWhile p = c :: l := by
  simp [List.dropWhile_cons, h]

theorem all_takeN (p : Char → Bool) (l : List Char) (n : Nat) (h : l.all p = true) :
    (l.take n).all p = true := by
  simp only [List.all_eq_true] at h ⊢
  exact fun x hx => h x (List.mem_of_mem_take hx)

theorem all_implies (p q : Char → Bool) (l : List Char)
    (himp : ∀ c, p c = true → q c = true) (h : l.all p = true) : l.all q = true := by
  simp only [List.all_eq_true] at h ⊢
  exact fun x hx => himp x (h x hx)

theorem isDomainChar_of_isAlpha (c : Char) (h : c.isAlpha = true) : isDomainChar c = true := by
  simp [isDomainChar, Char.isAlphanum, h]

theorem foldl_pick_valid (R : List Char) :
    ∀ (js : List Nat) (acc : Option Nat) (i : Nat),
      js.foldl (fun acc j => if validDot R j then some j else acc) acc = some i →
      validDot R i = true ∨ acc = some i := by
  intro js
  induction js with
  | nil => exact fun acc i h => Or.inr h
  | cons j tl ih =>
    intro acc i h
    simp only [List.foldl_cons] at h
    rcases ih _ i h with hv | hacc
    · exact Or.inl hv
    · by_cases hj : validDot R j = true
      · rw [if_pos hj] at hacc
        injection hacc with hji
        subst hji
        exact Or.inl hj
      · rw [if_neg hj] at hacc
        exact Or.inr hacc

theorem validDot_unpack (R : List Char) (i : Nat) (h : validDot R i = true) :
    1 ≤ i ∧ R.drop i = '.' :: R.drop (i + 1) ∧
      2 ≤ ((R.drop (i + 1)).takeWhile Char.isAlpha).length := by
  simp only [validDot, Bool.and_eq_true, decide_eq_true_eq, beq_iff_eq] at h
  obtain ⟨⟨h1, h2⟩, h3⟩ := h
  refine ⟨h1, ?_, h3⟩
  cases hD : R.drop i with
  | nil => rw [hD] at h2; simp at h2
  | cons c rest =>
    rw [hD] at h2
    simp only [List.headD_cons] at h2
    subst h2
    have hdd : R.drop (i + 1) = rest := by
      rw [← List.tail_drop, hD]
      rfl
    rw [hdd]

theorem domainSplit_sound (R dm rrem : List Char) (hall : R.all isDomainChar = true)
    (h : domainSplit R = some (dm, rrem)) :
    dm.all isDomainChar = true ∧ hasDotTld dm = true ∧ dm ≠ [] := by
  unfold domainSplit at h
  cases hF : (List.range R.length).foldl (fun acc i => if validDot R i then some i else acc) none with
  | none => rw [hF] at h; exact absurd h (by simp)
  | some i =>
    rw [hF] at h
    simp only [Option.some.injEq, Prod.mk.injEq] at h
    obtain ⟨hdm, _⟩ := h
    have hv : validDot R i = true := by
      rcases foldl_pick_valid R _ _ _ hF with hv | hc
      · exact hv
      · exact absurd hc (by simp)
    obtain ⟨hi1, hdrop, htld⟩ := validDot_unpack R i hv
    have htall : ((R.drop (i + 1)).takeWhile Char.isAlpha).all Char.isAlpha = true :=
      all_takeWhileP _ _
    have htake : (R.take i).all isDomainChar = true := all_takeN _ _ _ hall
    have htdom : ((R.drop (i + 1)).takeWhile Char.isAlpha).all isDomainChar = true :=
      all_implies _ _ _ isDomainChar_of_isAlpha htall
    have hne_take : R.take i ≠ [] := by
      intro hnil
      have hiR : i < R.length := by
        by_contra hge
        push_neg at hge
        rw [List.drop_eq_nil_of_le hge] at hdrop
        exact absurd hdrop (by simp)
      rcases List.take_eq_nil_iff.mp hnil with h0 | h0
      · omega
      · rw [h0] at hiR; simp at hiR
    subst hdm
    refine ⟨?_, ?_, by simp⟩
    · simp [List.all_append, List.all_cons, htake, htdom, isDomainChar]
    · unfold hasDotTld
      have hrev : (R.take i ++ '.' :: (R.drop (i + 1)).takeWhile Char.isAlpha).reverse
          = ((R.drop (i + 1)).takeWhile Char.isAlpha).reverse ++ '.' :: (R.take i).reverse := by
        simp
      have htw : ((R.take i ++ '.' :: (R.drop (i + 1)).takeWhile Char.isAlpha).reverse).takeWhile
          Char.isAlpha = ((R.drop (i + 1)).takeWhile Char.isAlpha).reverse := by
        rw [hrev, takeWhile_append_all Char.isAlpha _ _ (by simp [htall]),
          takeWhile_cons_false _ _ _ (by decide)]
        simp
      have hdw : ((R.take i ++ '.' :: (R.drop (i + 1)).takeWhile Char.isAlpha).reverse).dropWhile
          Char.isAlpha = '.' :: (R.take i).reverse := by
        rw [hrev, dropWhile_append_all Char.isAlpha _ _ (by simp [htall]),
          dropWhile_cons_false _ _ _ (by decide)]
      rw [hdw]
      simp only [htw]
      simp [htld, hne_take]

theorem emailMatchFrom_valid (l m rem : List Char) (h : emailMatchFrom l = some (m, rem)) :
    isEmailFull m = true := by
  unfold emailMatchFrom at h
  split at h
  · next r0 hdw =>
      by_cases hemp : (l.takeWhile isLocalChar).isEmpty
      · rw [if_pos hemp] at h; exact absurd h (by simp)
      · rw [if_neg hemp] at h
        cases hds : domainSplit (r0.takeWhile isDomainChar) with
        | none => rw [hds] at h; exact absurd h (by simp)
        | some pr =>
          obtain ⟨dm, rrem⟩ := pr
          rw [hds] at h
          simp only [Option.some.injEq, Prod.mk.injEq] at h
          obtain ⟨hm, _⟩ := h
          have hallR : (r0.takeWhile isDomainChar).all isDomainChar = true := all_takeWhileP _ _
          obtain ⟨hdma, hdt, _⟩ := domainSplit_sound _ _ _ hallR hds
          have halloc : (l.takeWhile isLocalChar).all isLocalChar = true := all_takeWhileP _ _
          subst hm
          unfold isEmailFull
          rw [dropWhile_append_all isLocalChar _ _ halloc,
            dropWhile_cons_false _ _ _ (by decide)]
          simp only
          rw [takeWhile_append_all isLocalChar _ _ halloc,
            takeWhile_cons_false _ _ _ (by decide)]
          simp only [List.append_nil]
          simp [hemp, hdma, hdt]
  · exact absurd h (by simp)

theorem emailScanAux_valid :
    ∀ (fuel : Nat) (l m : List Char), m ∈ emailScanAux fuel l → isEmailFull m = true := by
  intro fuel
  induction fuel with
  | zero => intro l m h; exact absurd h (by simp [emailScanAux])
  | succ f ih =>
    intro l m h
    cases l with
    | nil => exact absurd h (by simp [emailScanAux])
    | cons c tl =>
      cases hm : emailMatchFrom (c :: tl) with
      | some pr =>
        obtain ⟨m', rem⟩ := pr
        simp only [emailScanAux, hm, List.mem_cons] at h
        rcases h with h | h
        · subst h; exact emailMatchFrom_valid _ _ _ hm
        · exact ih rem m h
      | none =>
        simp only [emailScanAux, hm] at h
        exact ih tl m h

theorem emailFindall_valid (l m : List Char) (h : m ∈ emailFindall l) : isEmailFull m = true :=
  emailScanAux_valid _ _ _ h

theorem mem_insertFold :
    ∀ (ms : List (List Char)) (s : Finset String) (e : String),
      e ∈ ms.foldl (fun s m => insert (String.mk m) s) s →
      e ∈ s ∨ ∃ m ∈ ms, e = String.mk m := by
  intro ms
  induction ms with
  | nil => exact fun s e h => Or.inl h
  | cons m tl ih =>
    intro s e h
    simp only [List.foldl_cons] at h
    rcases ih _ _ h with h | ⟨m', hm', he⟩
    · rcases Finset.mem_insert.mp h with h | h
      · exact Or.inr ⟨m, by simp, h⟩
      · exact Or.inl h
    · exact Or.inr ⟨m', by simp [hm'], he⟩

theorem foldl_mem_or {α : Type} (step : Finset String → α → Finset String)
    (P : String → Prop)
    (hstep : ∀ s a e, e ∈ step s a → e ∈ s ∨ P e) :
    ∀ (l : List α) (s : Finset String) (e : String), e ∈ l.foldl step s → e ∈ s ∨ P e := by
  intro l
  induction l with
  | nil => exact fun s e h => Or.inl h
  | cons a tl ih =>
    intro s e h
    simp only [List.foldl_cons] at h
    rcases ih _ _ h with h | h
    · exact hstep s a e h
    · exact Or.inr h

theorem mem_textStep (s : Finset String) (t : String) (e : String) (h : e ∈ textStep s t) :
    e ∈ s ∨ isEmailFull e.toList = true := by
  rcases mem_insertFold _ _ _ h with h | ⟨m, hm, he⟩
  · exact Or.inl h
  · subst he
    exact Or.inr (emailFindall_valid _ _ hm)

theorem mem_mailtoStep (s : Finset String) (a : String × String) (e : String)
    (h : e ∈ mailtoStep s a) : e ∈ s ∨ isEmailFull e.toList = true := by
  unfold mailtoStep at h
  split at h
  · dsimp only at h
    split at h
    · next hfull =>
        rcases Finset.mem_insert.mp h with h | h
        · subst h; exact Or.inr hfull
        · exact Or.inl h
    · exact Or.inl h
  · exact Or.inl h

/-- Claim C5: every address returned by `extract_emails` is a full-string
match of the email grammar (in particular nothing with trailing
punctuation), the result being a set makes deduplication intrinsic, and
`mailto:` targets contribute only query-stripped full matches. -/
theorem claim_C5_email_grammar (doc : Dom) (e : String)
    (h : e ∈ extract_emails (some doc)) : isEmailFull e.toList = true := by
  unfold extract_emails at h
  rcases foldl_mem_or mailtoStep _ mem_mailtoStep _ _ _ h with h | h
  · rcases foldl_mem_or textStep (fun e => isEmailFull e.toList = true) mem_textStep _ _ _ h with h | h
    · exact absurd h (Finset.not_mem_empty e)
    · exact h
  · exact h

/-- Concrete document on which the C5 theorem is exercised: one plain-text
address and one `mailto:` anchor with a query part. -/
def emailWitnessDoc : Dom :=
  .elem "body" []
    (.text "reach us at sales@example.com"
      (.elem "a" [("href", "mailto:info@example.com?subject=hi")] (.text "mail" .nil) .nil))
    .nil

theorem claim_C5_email_grammar_witness :
    isEmailFull "info@example.com".toList = true ∧ isEmailFull "sales@example.com".toList = true :=
  ⟨claim_C5_email_grammar emailWitnessDoc "info@example.com" (by decide),
   claim_C5_email_grammar emailWitnessDoc "sales@example.com" (by decide)⟩

/-! ### Lemmas: the link classifier fold -/

/-- An anchor (text, href) qualifies for the About slot: it passes the skip
filter and the About rule on its lowered text and href. -/
def aboutQual (a : String × String) : Bool :=
  validHrefB a.2 && isAboutLink (strTrim (strLower a.1)) (strLower a.2)

/-- An anchor qualifies for the Contact slot. -/
def contactQual (a : String × String) : Bool :=
  validHrefB a.2 && isContactLink (strTrim (strLower a.1)) (strLower a.2)

theorem append_ne_empty_right (a b : String) (h : b ≠ "") : a ++ b ≠ "" := by
  intro heq
  apply h
  have hd : (a ++ b).data = ("" : String).data := congrArg String.data heq
  rw [String.data_append] at hd
  rcases List.append_eq_nil.mp hd with ⟨_, hb⟩
  exact String.ext hb

theorem urljoin_ne_empty (base href : String) (h : href ≠ "") : urljoin base href ≠ "" := by
  unfold urljoin
  split
  · exact h
  · split
    · exact append_ne_empty_right _ _ h
    · split
      · exact append_ne_empty_right _ _ h
      · exact append_ne_empty_right _ _ h

theorem validHrefB_ne_empty (href : String) (h : validHrefB href = true) : href ≠ "" := by
  intro he
  subst he
  exact absurd h (by decide)

theorem classifyStep_about (base : String) (s : LinkSet) (a : String × String) :
    (classifyStep base s a).about =
      if pyFalsy s.about && aboutQual a then some (urljoin base a.2) else s.about := by
  unfold classifyStep
  by_cases hv : validHrefB a.2 = true
  · rw [if_pos hv]
    dsimp only
    simp only [apply_ite LinkSet.about, ite_self]
    simp [aboutQual, hv]
  · rw [if_neg hv]
    have hv2 : validHrefB a.2 = false := by simpa using hv
    simp [aboutQual, hv2]

theorem classifyStep_contact (base : String) (s : LinkSet) (a : String × String) :
    (classifyStep base s a).contact =
      if pyFalsy s.contact && contactQual a then some (urljoin base a.2) else s.contact := by
  unfold classifyStep
  by_cases hv : validHrefB a.2 = true
  · rw [if_pos hv]
    dsimp only
    simp only [apply_ite LinkSet.contact, ite_self]
    simp [contactQual, hv]
  · rw [if_neg hv]
    have hv2 : validHrefB a.2 = false := by simpa using hv
    simp [contactQual, hv2]

theorem classifyStep_social (base : String) (s : LinkSet) (a : String × String) :
    (classifyStep base s a).social =
      if validHrefB a.2 && isSocialUrl (urljoin base a.2) then
        insert (urljoin base a.2) s.social
      else s.social := by
  unfold classifyStep
  by_cases hv : validHrefB a.2 = true
  · rw [if_pos hv]
    dsimp only
    simp only [apply_ite LinkSet.social, ite_self]
    simp [hv]
  · rw [if_neg hv]
    have hv2 : validHrefB a.2 = false := by simpa using hv
    simp [hv2]

theorem foldl_about_frozen (base : String) :
    ∀ (l : List (String × String)) (s : LinkSet) (u : String),
      s.about = some u → u ≠ "" → (l.foldl (classifyStep base) s).about = some u := by
  intro l
  induction l with
  | nil => exact fun s u hs _ => hs
  | cons a tl ih =>
    intro s u hs hu
    simp only [List.foldl_cons]
    refine ih _ u ?_ hu
    rw [classifyStep_about]
    simp [hs, pyFalsy, hu]

theorem foldl_about_none (base : String) :
    ∀ (l : List (String × String)) (s : LinkSet), s.about = none →
      (l.foldl (classifyStep base) s).about =
        (l.find? aboutQual).map (fun a => urljoin base a.2) := by
  intro l
  induction l with
  | nil => intro s hs; simpa using hs
  | cons a tl ih =>
    intro s hs
    simp only [List.foldl_cons]
    by_cases hq : aboutQual a = true
    · have hstep : (classifyStep base s a).about = some (urljoin base a.2) := by
        rw [classifyStep_about]
        simp [hs, pyFalsy, hq]
      have hvalid : validHrefB a.2 = true := by
        have hq2 := hq
        unfold aboutQual at hq2
        simp only [Bool.and_eq_true] at hq2
        exact hq2.1
      rw [foldl_about_frozen base tl _ _ hstep
        (urljoin_ne_empty _ _ (validHrefB_ne_empty _ hvalid))]
      rw [List.find?_cons_of_pos _ hq]
      rfl
    · have hstep : (classifyStep base s a).about = s.about := by
        rw [classifyStep_about]
        simp [hq]
      rw [ih _ (hstep.trans hs), List.find?_cons_of_neg _ (by simpa using hq)]

theorem foldl_contact_frozen (base : String) :
    ∀ (l : List (String × String)) (s : LinkSet) (u : String),
      s.contact = some u → u ≠ "" → (l.foldl (classifyStep base) s).contact = some u := by
  intro l
  induction l with
  | nil => exact fun s u hs _ => hs
  | cons a tl ih =>
    intro s u hs hu
    simp only [List.foldl_cons]
    refine ih _ u ?_ hu
    rw [classifyStep_contact]
    simp [hs, pyFalsy, hu]

theorem foldl_contact_none (base : String) :
    ∀ (l : List (String × String)) (s : LinkSet), s.contact = none →
      (l.foldl (classifyStep base) s).contact =
        (l.find? contactQual).map (fun a => urljoin base a.2) := by
  intro l
  induction l with
  | nil => intro s hs; simpa using hs
  | cons a tl ih =>
    intro s hs
    simp only [List.foldl_cons]
    by_cases hq : contactQual a = true
    · have hstep : (classifyStep base s a).contact = some (urljoin base a.2) := by
        rw [classifyStep_contact]
        simp [hs, pyFalsy, hq]
      have hvalid : validHrefB a.2 = true := by
        have hq2 := hq
        unfold contactQual at hq2
        simp only [Bool.and_eq_true] at hq2
        exact hq2.1
      rw [foldl_contact_frozen base tl _ _ hstep
        (urljoin_ne_empty _ _ (validHrefB_ne_empty _ hvalid))]
      rw [List.find?_cons_of_pos _ hq]
      rfl
    · have hstep : (classifyStep base s a).contact = s.contact := by
        rw [classifyStep_contact]
        simp [hq]
      rw [ih _ (hstep.trans hs), List.find?_cons_of_neg _ (by simpa using hq)]

theorem foldl_social_mem (base : String) :
    ∀ (l : List (String × String)) (s : LinkSet) (u : String),
      u ∈ (l.foldl (classifyStep base) s).social ↔
        u ∈ s.social ∨ ∃ a ∈ l, validHrefB a.2 = true ∧
          isSocialUrl (urljoin base a.2) = true ∧ urljoin base a.2 = u := by
  intro l
  induction l with
  | nil => intro s u; simp
  | cons a tl ih =>
    intro s u
    simp only [List.foldl_cons]
    rw [ih]
    by_cases hc : (validHrefB a.2 && isSocialUrl (urljoin base a.2)) = true
    · rw [classifyStep_social, if_pos hc]
      have hc2 := hc
      simp only [Bool.and_eq_true] at hc2
      have h1 : validHrefB a.2 = true := hc2.1
      have h2 : isSocialUrl (urljoin base a.2) = true := hc2.2
      simp only [Finset.mem_insert]
      constructor
      · rintro ((h | h) | ⟨b, hb, hp⟩)
        · exact Or.inr ⟨a, List.mem_cons_self a tl, h1, h2, h.symm⟩
        · exact Or.inl h
        · exact Or.inr ⟨b, List.mem_cons_of_mem _ hb, hp⟩
      · rintro (h | ⟨b, hb, hp⟩)
        · exact Or.inl (Or.inr h)
        · rcases List.mem_cons.mp hb with rfl | hb
          · exact Or.inl (Or.inl hp.2.2.symm)
          · exact Or.inr ⟨b, hb, hp⟩
    · rw [classifyStep_social, if_neg hc]
      constructor
      · rintro (h | ⟨b, hb, hp⟩)
        · exact Or.inl h
        · exact Or.inr ⟨b, List.mem_cons_of_mem _ hb, hp⟩
      · rintro (h | ⟨b, hb, hp⟩)
        · exact Or.inl h
        · rcases List.mem_cons.mp hb with rfl | hb
          · exact absurd (by simp [hp.1, hp.2.1]) hc
          · exact Or.inr ⟨b, hb, hp⟩

/-- Claim C1: the About and Contact slots each hold at most one URL (they
are `Option`-valued), namely the base-resolved href of the first qualifying
anchor in document scan order; later qualifying anchors never replace a
filled slot. -/
theorem claim_C1_first_wins (doc : Dom) (base : String) :
    (find_relevant_links (some doc) base).about =
      ((anchorsOf doc).find? aboutQual).map (fun a => urljoin base a.2) ∧
    (find_relevant_links (some doc) base).contact =
      ((anchorsOf doc).find? contactQual).map (fun a => urljoin base a.2) := by
  unfold find_relevant_links
  exact ⟨foldl_about_none base (anchorsOf doc) _ rfl,
    foldl_contact_none base (anchorsOf doc) _ rfl⟩
/-- The spec's reading of the social host normalisation: strip only a
LEADING `www.` from the host (follows the spec's words; the code instead
deletes every occurrence). -/
def specStripLeadingWww (s : String) : String :=
  if strStartsWith s "www." then strDrop s 4 else s

/-- Claim C4 (amended): every member of the social set has a host that,
after deleting every occurrence of `www.`, contains a known social domain;
a lowered path containing none of the slash-prefixed exclusion terms; and
at most two non-empty path segments or a profile segment.  All qualifying
anchors are retained. -/
theorem claim_C4_social_rule (doc : Dom) (base : String) :
    (∀ u ∈ (find_relevant_links (some doc) base).social,
      (∃ d ∈ SOCIAL_DOMAINS, strContains (socialDomainOf u) d = true) ∧
      (∀ w ∈ SOCIAL_PATH_EXCL, strContains (socialPathOf u) w = false) ∧
      ((socialPathParts u).length ≤ 2 ∨ ∃ p ∈ socialPathParts u,
        p ∈ (["company", "in", "user", "channel"] : List String))) ∧
    (∀ a ∈ anchorsOf doc, validHrefB a.2 = true → ∀ u, urljoin base a.2 = u →
      isSocialUrl u = true → u ∈ (find_relevant_links (some doc) base).social) := by
  constructor
  · intro u hu
    rw [show find_relevant_links (some doc) base
        = (anchorsOf doc).foldl (classifyStep base) ⟨none, none, ∅⟩ from rfl] at hu
    rcases (foldl_social_mem base (anchorsOf doc) ⟨none, none, ∅⟩ u).mp hu with h | ⟨a, _, _, hsoc, hequ⟩
    · exact absurd h (Finset.not_mem_empty u)
    · rw [hequ] at hsoc
      unfold isSocialUrl at hsoc
      simp only [Bool.and_eq_true, Bool.or_eq_true, Bool.not_eq_true', List.any_eq_true,
        List.any_eq_false, decide_eq_true_eq, List.contains, List.elem_eq_mem, decide_eq_false_iff_not] at hsoc
      obtain ⟨⟨hdom, hexcl⟩, hshape⟩ := hsoc
      refine ⟨hdom, ?_, ?_⟩
      · intro w hw
        have := hexcl w hw
        simpa using this
      · rcases hshape with h | ⟨p, hp, hmem⟩
        · exact Or.inl h
        · exact Or.inr ⟨p, hp, by simpa using hmem⟩
  · intro a ha hval u hequ hsoc
    rw [show find_relevant_links (some doc) base
        = (anchorsOf doc).foldl (classifyStep base) ⟨none, none, ∅⟩ from rfl]
    exact (foldl_social_mem base (anchorsOf doc) ⟨none, none, ∅⟩ u).mpr
      (Or.inr ⟨a, ha, hval, by rw [hequ]; exact hsoc, hequ⟩)

/-- Homepage on which the original C4 claim fails: one anchor whose host
`linkedwww.in.com` collapses to `linkedin.com` only under the code's
replace-all `www.` deletion, and whose path `/fooshare` contains the bare
word `share` but not the slash-prefixed `/share`. -/
def socialCounterDoc : Dom :=
  .elem "html" []
    (.elem "body" []
      (.elem "a" [("href", "https://linkedwww.in.com/fooshare")] (.text "x" .nil) .nil)
      .nil)
    .nil

theorem claim_C4_counterexample :
    "https://linkedwww.in.com/fooshare"
        ∈ (find_relevant_links (some socialCounterDoc) "https://base.example").social
      ∧ strContains (socialPathOf "https://linkedwww.in.com/fooshare") "share" = true
      ∧ SOCIAL_DOMAINS.all
          (fun d => !strContains (specStripLeadingWww
            (urlparse "https://linkedwww.in.com/fooshare").netloc) d) = true := by
  refine ⟨by decide, by decide, by decide⟩

/-- Homepage exercising the amended C4 theorem on the spec's own examples:
a LinkedIn company page and a Facebook share link. -/
def socialWitnessDoc : Dom :=
  .elem "html" []
    (.elem "body" []
      (.elem "a" [("href", "https://linkedin.com/company/acme")] (.text "ln" .nil)
        (.elem "a" [("href", "https://facebook.com/share?foo")] (.text "fb" .nil) .nil))
      .nil)
    .nil

theorem claim_C4_social_rule_witness :
    "https://linkedin.com/company/acme"
      ∈ (find_relevant_links (some socialWitnessDoc) "https://comp.example").social :=
  (claim_C4_social_rule socialWitnessDoc "https://comp.example").2
    ("ln", "https://linkedin.com/company/acme") (by decide) (by decide)
    "https://linkedin.com/company/acme" (by decide) (by decide)

/-! ### Claim C2: the About candidate rule -/

/-- Case- and hyphen-insensitive canonical form used by the spec's About
rule wording: lowercase and turn hyphens into spaces. -/
def canonHI (s : String) : String :=
  String.mk (s.toList.map (fun c => if c.toLower == '-' then ' ' else c.toLower))

/-- Follows the spec's About-rule words exactly: the visible text OR the
href contains "about", "company" or "who we are" (case-insensitive,
hyphen-insensitive) and the href contains no exclusion term. -/
def specAboutCandidate (text href : String) : Bool :=
  ((["about", "company", "who we are"] : List String).any
    (fun kw => strContains (canonHI text) kw || strContains (canonHI href) kw))
  && !((["blog", "news", "press", "careers", "jobs", "events"] : List String).any
    (fun kw => strContains (strLower href) kw))

/-- The About rule as the code actually implements it (the amended claim):
the lowered, stripped visible text may contain "about", "company" or
"who we are", while the lowered href only qualifies through "/about" or
"who-we-are"; exclusion terms are checked on the href alone. -/
def amendedAboutCandidate (text href : String) : Bool :=
  (strContains (strTrim (strLower text)) "about"
    || strContains (strTrim (strLower text)) "company"
    || strContains (strTrim (strLower text)) "who we are"
    || strContains (strLower href) "/about"
    || strContains (strLower href) "who-we-are")
  && !((["blog", "news", "press", "careers", "jobs", "events"] : List String).any
    (fun kw => strContains (strLower href) kw))

/-- Homepage on which the original C2 claim fails: the href contains the
word "company", which the spec's rule accepts but the code ignores (it only
looks for "/about" and "who-we-are" in the href). -/
def aboutCounterDoc : Dom :=
  .elem "html" []
    (.elem "body" [] (.elem "a" [("href", "/companypage")] (.text "x" .nil) .nil) .nil)
    .nil

theorem claim_C2_counterexample :
    validHrefB "/companypage" = true
      ∧ specAboutCandidate "x" "/companypage" = true
      ∧ isAboutLink (strTrim (strLower "x")) (strLower "/companypage") = false
      ∧ (find_relevant_links (some aboutCounterDoc) "http://e.example").about = none :=
  ⟨by decide, by decide, by decide, by decide⟩

/-- Claim C2 (amended): for every anchor passing the skip filter, the
anchor qualifies for the About slot exactly when the amended About rule on
its raw text and href holds. -/
theorem claim_C2_about_rule (text href : String) (h : validHrefB href = true) :
    aboutQual (text, href) = amendedAboutCandidate text href := by
  unfold aboutQual amendedAboutCandidate isAboutLink
  rw [h]
  cases h1 : strContains (strTrim (strLower text)) "about" <;>
    cases h2 : strContains (strLower href) "/about" <;>
      cases h3 : strContains (strTrim (strLower text)) "company" <;>
        cases h4 : strContains (strTrim (strLower text)) "who we are" <;>
          cases h5 : strContains (strLower href) "who-we-are" <;>
            simp [h1, h2, h3, h4, h5]

theorem claim_C2_about_rule_witness :
    aboutQual ("About Us", "/about-us") = amendedAboutCandidate "About Us" "/about-us" :=
  claim_C2_about_rule "About Us" "/about-us" (by decide)

/-! ### Claims C6 and C7: the content extractor -/

theorem findSome_append_none {α β : Type} (f : α → Option β) :
    ∀ (pre l : List α), (∀ s ∈ pre, f s = none) → (pre ++ l).findSome? f = l.findSome? f := by
  intro pre
  induction pre with
  | nil => simp
  | cons a tl ih =>
    intro l hpre
    simp only [List.cons_append, List.findSome?_cons]
    rw [hpre a (List.mem_cons_self a tl)]
    exact ih l (fun s hs => hpre s (List.mem_cons_of_mem _ hs))

theorem selQual_length (doc : Dom) (sel : Selector) (t : String) (h : selQual doc sel = some t) :
    200 < strLen t := by
  unfold selQual at h
  split at h
  · dsimp only at h
    split at h
    · next hlen => injection h with h2; subst h2; exact hlen
    · exact absurd h (by simp)
  · exact absurd h (by simp)

theorem selectorTierText_length (doc : Dom) (t : String) (h : selectorTierText doc = some t) :
    200 < strLen t := by
  unfold selectorTierText at h
  obtain ⟨sel, _, hq⟩ := List.exists_of_findSome?_eq_some h
  exact selQual_length doc sel t hq

/-- Claim C7: the selector tier accepts the first selector in list order
whose match has text longer than 200 characters, regardless of what any
later selector would produce. -/
theorem claim_C7_selector_first_wins (doc : Dom) (pre post : List Selector) (sel : Selector)
    (t : String) (hsel : SELECTORS = pre ++ sel :: post)
    (hpre : ∀ s ∈ pre, selQual doc s = none) (hq : selQual doc sel = some t) :
    extract_relevant_text (some doc) = some (normalizeWs t) := by
  have htier : selectorTierText doc = some t := by
    unfold selectorTierText
    rw [hsel, findSome_append_none _ pre _ hpre]
    simp [List.findSome?_cons, hq]
  have hne : (t == "") = false := by
    have hl := selQual_length doc sel t hq
    simp only [beq_eq_false_iff_ne, ne_eq]
    intro he
    subst he
    simp [strLen] at hl
  show (extract_relevant_textM doc).1 = some (normalizeWs t)
  unfold extract_relevant_textM
  rw [htier]
  dsimp only
  simp [hne]

/-- Document for the spec's C7 scenario: the primary container holds 250
characters, a later selector's container holds 500. -/
def selectorWitnessDoc : Dom :=
  .elem "html" []
    (.elem "body" []
      (.elem "main" [] (.text (String.mk (List.replicate 250 'a')) .nil)
        (.elem "article" [] (.text (String.mk (List.replicate 500 'b')) .nil) .nil))
      .nil)
    .nil

set_option maxRecDepth 8000 in
theorem claim_C7_selector_first_wins_witness :
    extract_relevant_text (some selectorWitnessDoc)
      = some (normalizeWs (String.mk (List.replicate 250 'a'))) :=
  claim_C7_selector_first_wins selectorWitnessDoc []
    [.tag "article", .tagRole "section" "main", .tagRole "div" "main",
     .cls "main-content", .idSel "main-content", .cls "content", .idSel "content"]
    (.tag "main") (String.mk (List.replicate 250 'a')) rfl (by simp) (by decide)

/-- Claim C6 (amended): the content extractor returns absent exactly when
no selector-tier region qualifies and the body is missing or the cleaned
body copy's text is empty. -/
theorem claim_C6_absent_iff (doc : Dom) :
    extract_relevant_text (some doc) = none ↔
      selectorTierText doc = none ∧ (fallbackText doc = none ∨ fallbackText doc = some "") := by
  show (extract_relevant_textM doc).1 = none ↔ _
  unfold extract_relevant_textM
  cases h : selectorTierText doc with
  | some t =>
    dsimp only
    have hne : (t == "") = false := by
      have hl := selectorTierText_length doc t h
      simp only [beq_eq_false_iff_ne, ne_eq]
      intro he
      subst he
      simp [strLen] at hl
    simp [hne]
  | none =>
    dsimp only
    cases hf : fallbackText doc with
    | none => simp
    | some t =>
      dsimp only
      by_cases ht : (t == "") = true
      · simp only [ht, if_true]
        simp only [beq_iff_eq] at ht
        simp [ht]
      · simp only [ht, if_false]
        simp only [beq_iff_eq] at ht
        simp [ht]

/-- Document refuting the original C6 claim: a body exists but is empty, so
the extractor still returns absent. -/
def emptyBodyDoc : Dom := .elem "html" [] (.elem "body" [] .nil .nil) .nil

theorem claim_C6_counterexample :
    extract_relevant_text (some emptyBodyDoc) = none ∧ (findBody emptyBodyDoc).isSome = true :=
  ⟨by decide, by decide⟩

/-- Claim C9: content extraction does not mutate the parsed document (the
noise decompose works on a copy of the body), so extracting emails after
content extraction sees exactly the original document. -/
theorem claim_C9_no_mutation (doc : Dom) :
    (extract_relevant_textM doc).2 = doc ∧
      extract_emails (some (extract_relevant_textM doc).2) = extract_emails (some doc) := by
  have h2 : (extract_relevant_textM doc).2 = doc := by
    unfold extract_relevant_textM
    cases h : selectorTierText doc with
    | some t =>
      dsimp only
      split <;> rfl
    | none =>
      dsimp only
      cases hf : fallbackText doc with
      | some t =>
        dsimp only
        split <;> rfl
      | none => rfl
  exact ⟨h2, by rw [h2]⟩

/-- Claim C10: on an absent document (failed parse) every extraction
operation returns its empty value: no About/Contact/social links, no
emails, no main text. -/
theorem claim_C10_absent_document (base : String) :
    find_relevant_links none base = ⟨none, none, ∅⟩
      ∧ extract_emails none = ∅
      ∧ extract_relevant_text none = none :=
  ⟨rfl, rfl, rfl⟩

/-! ### Claims C3 and C8: the orchestrator -/

theorem aboutStep_summary (w : World) (ao : Option String)
    (h : (aboutStep w ao).2.1 ≠ none) :
    (aboutStep w ao).1 ≠ none ∧
      (w.apiKey = none ∨ 75 ≤ strLen ((aboutStep w ao).1.getD "")) := by
  unfold aboutStep at h ⊢
  cases ao with
  | none => simp at h
  | some aurl =>
    dsimp only at h ⊢
    by_cases he : (aurl == "") = true
    · rw [if_pos he] at h
      simp at h
    · rw [if_neg he] at h ⊢
      cases hp : parse_html w (fetch_page w aurl) with
      | none => rw [hp] at h; simp at h
      | some asoup =>
        rw [hp] at h
        dsimp only at h ⊢
        cases hat : (extract_relevant_textM asoup).1 with
        | none => rw [hat] at h; simp at h
        | some t =>
          rw [hat] at h
          dsimp only at h ⊢
          by_cases hte : (t == "") = true
          · rw [if_pos hte] at h; simp at h
          · rw [if_neg hte] at h
            refine ⟨by simp, ?_⟩
            unfold summarize_text at h
            cases hk : w.apiKey with
            | none => exact Or.inl rfl
            | some k =>
              rw [hk] at h
              right
              by_cases hlen : (t == "" || decide (strLen t < 75)) = true
              · rw [if_pos hlen] at h; simp at h
              · simp only [Bool.or_eq_true, decide_eq_true_eq] at hlen
                push_neg at hlen
                simp only [Option.getD_some]
                omega

/-- Claim C3 (amended): `about_summary` is populated only if `about_text`
is present and non-empty, and then only if either the summarizer credential
is missing (the populated value is the credential error marker) or
`about_text` is at least 75 characters long. -/
theorem claim_C3_summary_threshold (w : World) (url : String)
    (h : (run_scraping_only w url).about_summary ≠ none) :
    (run_scraping_only w url).about_text ≠ none ∧
      (w.apiKey = none ∨ 75 ≤ strLen (((run_scraping_only w url).about_text).getD "")) := by
  unfold run_scraping_only at h ⊢
  cases hp : parse_html w (fetch_page w url) with
  | none => rw [hp] at h; simp at h
  | some soup =>
    rw [hp] at h
    dsimp only at h ⊢
    exact aboutStep_summary w _ h

/-- The 60-character About-page text of the spec's scenario 3. -/
def aboutText60 : String := String.mk (List.replicate 60 'q')

/-- Homepage with a single About link, used for the C3 counterexample. -/
def c3HomeDoc : Dom :=
  .elem "html" []
    (.elem "body" [] (.elem "a" [("href", "/about")] (.text "About Us" .nil) .nil) .nil)
    .nil

/-- About page whose extracted text is exactly 60 characters. -/
def c3AboutDoc : Dom :=
  .elem "html" [] (.elem "body" [] (.text aboutText60 .nil) .nil) .nil

/-- World with a missing summarizer credential, a reachable homepage and a
reachable About page with 60 characters of text. -/
def c3World : World :=
  { fetch := fun u =>
      if u == "http://ex.example" then some "HOME"
      else if u == "http://ex.example/about" then some "ABOUT"
      else none
    parse := fun b =>
      if b == "HOME" then some c3HomeDoc
      else if b == "ABOUT" then some c3AboutDoc
      else none
    apiKey := none
    gen := fun _ => .blocked
    t1 := 0
    t2 := 1 }

set_option maxRecDepth 8000 in
theorem claim_C3_counterexample :
    (run_scraping_only c3World "http://ex.example").about_summary
        = some "API Key Error: GOOGLE_API_KEY not set."
      ∧ (run_scraping_only c3World "http://ex.example").about_text = some aboutText60
      ∧ strLen aboutText60 = 60 :=
  ⟨by decide, by decide, by decide⟩

set_option maxRecDepth 8000 in
theorem claim_C3_summary_threshold_witness :
    (run_scraping_only c3World "http://ex.example").about_text ≠ none ∧
      (c3World.apiKey = none ∨
        75 ≤ strLen (((run_scraping_only c3World "http://ex.example").about_text).getD "")) :=
  claim_C3_summary_threshold c3World "http://ex.example" (by decide)

/-- Claim C8: when the homepage fetch or parse fails, `run_scraping_only`
returns (never raises) the default record: title "N/A", no emails, no
social links, no about text or summary, and a positive elapsed time
whenever the second clock reading exceeds the first. -/
theorem claim_C8_homepage_failure (w : World) (url : String)
    (hfail : parse_html w (fetch_page w url) = none) (hclock : w.t1 < w.t2) :
    (run_scraping_only w url).title = "N/A"
      ∧ (run_scraping_only w url).emails = ∅
      ∧ (run_scraping_only w url).social_links = ∅
      ∧ (run_scraping_only w url).about_text = none
      ∧ (run_scraping_only w url).about_summary = none
      ∧ 0 < (run_scraping_only w url).processing_time := by
  unfold run_scraping_only
  rw [hfail]
  exact ⟨rfl, rfl, rfl, rfl, rfl, Int.sub_pos.mpr hclock⟩

/-- World in which every fetch fails. -/
def failWorld : World :=
  { fetch := fun _ => none, parse := fun _ => none, apiKey := none,
    gen := fun _ => .blocked, t1 := 0, t2 := 1 }

theorem claim_C8_homepage_failure_witness :
    (run_scraping_only failWorld "http://down.example").title = "N/A"
      ∧ (run_scraping_only failWorld "http://down.example").emails = ∅
      ∧ (run_scraping_only failWorld "http://down.example").social_links = ∅
      ∧ (run_scraping_only failWorld "http://down.example").about_text = none
      ∧ (run_scraping_only failWorld "http://down.example").about_summary = none
      ∧ 0 < (run_scraping_only failWorld "http://down.example").processing_time :=
  claim_C8_homepage_failure failWorld "http://down.example" rfl (by decide)
end Scraper
